import Mathlib

/-!
Verification of the DentalDesk conversation-orchestration engine.

This file shallowly embeds the orchestration core of the repository:

* `src/app/agent.py` — the message queue, `enqueue_message`, the per-item
  turn loop `consume_messages` (rehydration from the durable log,
  classification and persistence of turn artifacts, outbound dispatch),
  and the background `conversation_cleanup_task` sweep;
* `src/shared/db.py` — the sqlite accessors the engine consumes
  (`create_patient`, `get_patient_by_phone`, `get_open_conversation`,
  `create_conversation`, `close_conversation`, `add_message`,
  `get_messages`, `get_conversation`);
* `src/shared/models.py` — the pydantic records backing the rows.

Python `datetime.now()` is modelled by a strictly increasing natural-number
clock carried in the database state; each call to `now()` reads the clock
and ticks it, so `created_at` values record the real temporal order of the
writes.  JSON serialization (`json.dumps` / `json.loads`) is modelled at the
granularity the code uses it: the text column of a message row is an
algebraic datatype whose constructors stand for the disjoint classes of
strings the code ever writes or parses (plain text, a serialized tool-call
list, a serialized tool-result object, and anything that fails to parse
back).  Exceptions are modelled with `Except`.
-/

namespace DentalDesk

/-- One entry of an `AIMessage.tool_calls` list: name, serialized arguments
dict (opaque here), and the opaque call id. -/
structure ToolCall where
  name : String
  args : String
  id : String
deriving DecidableEq, Repr

/-- In-memory transcript message, mirroring the langchain message kinds the
agent code constructs: `HumanMessage`, `AIMessage` (content plus a possibly
empty `tool_calls` list) and `ToolMessage` (content plus `tool_call_id`).
The system message is assembled inside the opaque planner and never reaches
the persistence or rehydration code, so it is not modelled. -/
inductive Msg
  | human (content : String)
  | ai (content : String) (tool_calls : List ToolCall)
  | tool (content : String) (tool_call_id : String)
deriving DecidableEq, Repr

/-- `msg.content` as the Python attribute access used by the fallback branch
of `consume_messages` (line 245): every langchain message has `.content`. -/
def Msg.contentOf : Msg → String
  | .human c => c
  | .ai c _ => c
  | .tool c _ => c

/-- Model of the `message` text column of a row of the `messages` table.
The constructors stand for the disjoint classes of strings the engine writes
or parses: plain text (`user` and `agent` rows), `json.dumps` of a
`tool_calls` list (`agent_tool_call` rows), `json.dumps` of
`{"content": ..., "tool_call_id": ...}` (`tool` rows), and `malformed` for
any string on which the corresponding `json.loads`/field access in
`consume_messages` (lines 191, 195–196) would raise. -/
inductive DbPayload
  | text (s : String)
  | toolCallsJson (tcs : List ToolCall)
  | toolResultJson (content : String) (tool_call_id : String)
  | malformed (s : String)
deriving DecidableEq, Repr

/-- The raw string content of a payload, as read verbatim by the `user` and
`agent` branches of rehydration (which never parse the column).  Rows with
those senders are only ever written with plain text by this code, so the
serialized-JSON constructors (whose concrete string rendering is abstracted
away) map to a placeholder that no reachable row exercises. -/
def rawText : DbPayload → String
  | .text s => s
  | .malformed s => s
  | .toolCallsJson _ => ""
  | .toolResultJson _ _ => ""

/-- A row of the `messages` table (schema in `db.py`): id, conversation id,
sender tag, payload column, and `created_at` drawn from the clock. -/
structure DbRow where
  id : Nat
  conversation_id : Nat
  sender : String
  payload : DbPayload
  created_at : Nat
deriving DecidableEq, Repr

/-- Rehydration of a single persisted row, translating the sender dispatch
of `consume_messages` lines 184–196.  `user` and `agent` rows take the
column verbatim; `agent_tool_call` and `tool` rows parse it, and a parse
failure is the raised `json` exception (`Except.error`).  A sender outside
the four tags written by this code hits no branch and is silently skipped
(`Except.ok none`). -/
def rehydrateRow (r : DbRow) : Except String (Option Msg) :=
  if r.sender = "user" then
    .ok (some (.human (rawText r.payload)))
  else if r.sender = "agent" then
    .ok (some (.ai (rawText r.payload) []))
  else if r.sender = "agent_tool_call" then
    match r.payload with
    | .toolCallsJson tcs => .ok (some (.ai "" tcs))
    | _ => .error "json.loads failed on agent_tool_call payload"
  else if r.sender = "tool" then
    match r.payload with
    | .toolResultJson c cid => .ok (some (.tool c cid))
    | _ => .error "json.loads failed on tool payload"
  else
    .ok none

/-- Rehydration of a whole persisted log (the `for msg in history` loop of
`consume_messages` lines 183–196): rows are mapped in order and the first
raised exception aborts the whole loop — there is no per-entry handler. -/
def rehydrateRows : List DbRow → Except String (List Msg)
  | [] => .ok []
  | r :: rest =>
    match rehydrateRow r with
    | .error e => .error e
    | .ok o =>
      match rehydrateRows rest with
      | .error e => .error e
      | .ok ms => .ok (o.toList ++ ms)

/-- One persistence/dispatch action produced by the classification loop:
a durable append (`db.add_message` with sender tag and payload) or an
outbound `send_message(phone, text)`. -/
inductive Action
  | add (sender : String) (payload : DbPayload)
  | send (phone : String) (text : String)
deriving DecidableEq, Repr

/-- Classification of one generated message, translating the loop body of
`consume_messages` lines 222–242: an `AIMessage` with a nonempty
`tool_calls` list persists as an `agent_tool_call` row (its text content is
ignored); otherwise a nonempty content persists as an `agent` row and is
sent outward; a `ToolMessage` persists as a `tool` row; anything else
matches no branch. -/
def classifyMsg (phone : String) (m : Msg) : List Action :=
  match m with
  | .ai c tcs =>
    if tcs ≠ [] then [.add "agent_tool_call" (.toolCallsJson tcs)]
    else if c ≠ "" then [.add "agent" (.text c), .send phone c]
    else []
  | .tool c cid => [.add "tool" (.toolResultJson c cid)]
  | .human _ => []

/-- Index of the last `HumanMessage` in a transcript, translating the
reversed-enumerate scan of `consume_messages` lines 213–217 (`none` models
the `-1` sentinel). -/
def lastHumanIdx : List Msg → Option Nat
  | [] => none
  | m :: rest =>
    match lastHumanIdx rest with
    | some i => some (i + 1)
    | none => match m with
      | .human _ => some 0
      | _ => none

/-- The persistence/dispatch actions of one turn, translating
`consume_messages` lines 212–247: classify every message after the last
`HumanMessage`; if the transcript holds no `HumanMessage` at all, fall back
to persisting the last message's content as an `agent` row and sending it.
(`response["messages"][-1]` on an empty list would raise; that case is
unreachable because the invoking user message is always present, and is
modelled as producing no actions.) -/
def processTurnActions (phone : String) (resp : List Msg) : List Action :=
  match lastHumanIdx resp with
  | some i => ((resp.drop (i + 1)).map (classifyMsg phone)).flatten
  | none =>
    match resp.getLast? with
    | some m => [.add "agent" (.text m.contentOf), .send phone m.contentOf]
    | none => []

/-- The texts handed to the outbound channel by a list of actions, in
order. -/
def sendTexts (acts : List Action) : List String :=
  acts.filterMap fun a => match a with
    | .send _ t => some t
    | _ => none

/-- Spec-side view: the text of a generated message that the classification
rule designates as a user-facing `agent_text` reply (an assistant message
with no tool calls and nonempty text). -/
def textReply : Msg → Option String
  | .ai c tcs => if tcs = [] ∧ c ≠ "" then some c else none
  | _ => none

/-- Spec-side characterisation of the outbound texts of one turn: one send
per `agent_text` message after the last user message, in production order;
when no user message exists in the transcript, the single fallback send of
the last message's content. -/
def specSends (resp : List Msg) : List String :=
  match lastHumanIdx resp with
  | some i => (resp.drop (i + 1)).filterMap textReply
  | none =>
    match resp.getLast? with
    | some m => [m.contentOf]
    | none => []

/-- The single durable row (sender tag, payload) that the worker writes for
one in-memory message over the lifetime of a conversation: the inbound user
message is persisted with sender `user` (`consume_messages` line 207), and
every generated message is persisted by the classification loop (lines
222–242); an assistant message with empty text and no tool calls matches no
branch and leaves no row. -/
def persistRowOf (m : Msg) : Option (String × DbPayload) :=
  match m with
  | .human c => some ("user", .text c)
  | .ai c tcs =>
    if tcs ≠ [] then some ("agent_tool_call", .toolCallsJson tcs)
    else if c ≠ "" then some ("agent", .text c)
    else none
  | .tool c cid => some ("tool", .toolResultJson c cid)

/-- The durable log left behind by persisting a transcript in order, with
`created_at` drawn from successive clock ticks (one `db.add_message` per
persisted message). -/
def persistLog (cid : Nat) : Nat → List Msg → List DbRow
  | _, [] => []
  | c, m :: rest =>
    match persistRowOf m with
    | some (s, p) => ⟨c + 1, cid, s, p, c⟩ :: persistLog cid (c + 1) rest
    | none => persistLog cid c rest

/-- A message whose persisted row rehydrates back to the message itself:
assistant messages must carry either tool calls with empty text (text on a
tool-call message is dropped at persistence) or nonempty text with no tool
calls (an empty text-only message leaves no row at all). -/
def roundtripSafe : Msg → Bool
  | .ai c tcs => (tcs.isEmpty && !(c == "")) || (!tcs.isEmpty && c == "")
  | _ => true

/-- A patient row (`patients` table; `id` is the primary key sqlite
assigns). -/
structure PatientRow where
  id : Nat
  name : String
  age : Option Nat
  gender : Option String
  phone_number : String
deriving DecidableEq, Repr

/-- A conversation row (`conversations` table). -/
structure ConversationRow where
  id : Nat
  patient_id : Option Nat
  status : String
  started_at : Nat
  ended_at : Option Nat
  closed_reason : Option String
deriving DecidableEq, Repr

/-- The durable sqlite state consumed by the engine, together with the
monotone clock modelling `datetime.now()`. -/
structure DbState where
  patients : List PatientRow
  conversations : List ConversationRow
  log : List DbRow
  clock : Nat
deriving DecidableEq, Repr

/-- `db.get_patient_by_phone`: first row matching the phone number. -/
def get_patient_by_phone (st : DbState) (phone : String) : Option PatientRow :=
  st.patients.find? fun p => p.phone_number == phone

/-- `db.create_patient`: insert and report the assigned row id (`lastrowid`;
rows are never deleted, so it is the row count plus one). -/
def create_patient (st : DbState) (name : String) (age : Option Nat)
    (gender : Option String) (phone : String) : DbState × PatientRow :=
  let p : PatientRow := ⟨st.patients.length + 1, name, age, gender, phone⟩
  ({ st with patients := st.patients ++ [p] }, p)

/-- `db.get_open_conversation`: the open conversation of the patient with
the greatest `started_at` (`ORDER BY started_at DESC LIMIT 1`; insertion
order agrees with `started_at` because the clock is monotone). -/
def get_open_conversation (st : DbState) (pid : Nat) : Option ConversationRow :=
  (st.conversations.filter fun c => c.status == "open" && c.patient_id == some pid).getLast?

/-- `db.create_conversation`: insert an open conversation stamped with the
current time. -/
def create_conversation (st : DbState) (pid : Option Nat) : DbState × ConversationRow :=
  let c : ConversationRow := ⟨st.conversations.length + 1, pid, "open", st.clock, none, none⟩
  ({ st with conversations := st.conversations ++ [c], clock := st.clock + 1 }, c)

/-- `db.close_conversation`: unconditionally set the matching row to
`closed` with the given reason and the current time (the open-status guard
lives in the sweep, not here). -/
def close_conversation (st : DbState) (cid : Nat) (reason : String) : DbState :=
  { st with
    conversations := st.conversations.map fun c =>
      if c.id = cid then { c with status := "closed", ended_at := some st.clock, closed_reason := some reason } else c
    clock := st.clock + 1 }

/-- `db.get_conversation`: row by primary key. -/
def get_conversation (st : DbState) (cid : Nat) : Option ConversationRow :=
  st.conversations.find? fun c => c.id == cid

/-- `db.add_message`: append a row stamped with the current time, reporting
the inserted row. -/
def add_message (st : DbState) (cid : Nat) (sender : String) (payload : DbPayload) :
    DbState × DbRow :=
  let r : DbRow := ⟨st.log.length + 1, cid, sender, payload, st.clock⟩
  ({ st with log := st.log ++ [r], clock := st.clock + 1 }, r)

/-- `db.get_messages`: the rows of one conversation in `created_at` order
(`ORDER BY created_at`; `created_at` is assigned from the strictly
increasing clock, so this is the stored order of the matching rows). -/
def get_messages (st : DbState) (cid : Nat) : List DbRow :=
  st.log.filter fun r => r.conversation_id == cid

/-- Number of open conversations of a patient. -/
def openCount (st : DbState) (pid : Nat) : Nat :=
  st.conversations.countP fun c => c.status == "open" && c.patient_id == some pid

/-- A work item of the global `message_queue` (`enqueue_message` lines
145–150). -/
structure QueueItem where
  conversation_id : Nat
  patient : PatientRow
  message : String
  timestamp : Nat
deriving DecidableEq, Repr

/-- The state values of one thread of the agent's `InMemorySaver`
checkpointer: the running transcript plus the auxiliary channels of the
`State` class in `agent.py`. -/
structure CpVal where
  messages : List Msg
  last_interaction_time : Option Nat
  patient : Option PatientRow
  conversation_id : Option Nat
deriving DecidableEq, Repr

/-- The checkpoint store: thread id (the conversation id) to state values;
`some none` models a listed thread whose snapshot has empty (falsy)
values. -/
def Store := List (Nat × Option CpVal)

instance : DecidableEq Store := inferInstanceAs (DecidableEq (List (Nat × Option CpVal)))

/-- `agent.aget_state` on a thread id. -/
def lookupStore (s : Store) (tid : Nat) : Option (Option CpVal) :=
  (List.find? (fun e => e.1 == tid) s).map Prod.snd

/-- Replace (or create) the state values of a thread. -/
def insertStore (s : Store) (tid : Nat) (v : Option CpVal) : Store :=
  match s with
  | [] => [(tid, v)]
  | e :: rest => if e.1 = tid then (tid, v) :: rest else e :: insertStore rest tid v

/-- `checkpointer.delete_thread`. -/
def deleteStore (s : Store) (tid : Nat) : Store :=
  List.filter (fun e => !(e.1 == tid)) s

/-- The whole engine state: durable store plus checkpoint store. -/
structure SysState where
  db : DbState
  store : Store
deriving DecidableEq

/-- `enqueue_message` (`agent.py` lines 119–150): find or create the patient
by phone (a new patient gets the placeholder name), find or create the
patient's open conversation, and append a work item to the queue. -/
def enqueue_message (st : DbState) (queue : List QueueItem) (phone message : String) :
    DbState × List QueueItem :=
  let fp := match get_patient_by_phone st phone with
    | some p => (st, p)
    | none => create_patient st "New Patient" none none phone
  let st1 := fp.1
  let patient := fp.2
  let fc := match get_open_conversation st1 patient.id with
    | some c => (st1, c)
    | none => create_conversation st1 (some patient.id)
  let st2 := fc.1
  let conv := fc.2
  ({ st2 with clock := st2.clock + 1 },
    queue ++ [⟨conv.id, patient, message, st2.clock⟩])

/-- Observable effect of the worker while processing one item: a durable
append, an outbound send, or the error log line of the per-item handler
(`consume_messages` line 250). -/
inductive Effect
  | dbAdd (r : DbRow)
  | sent (phone : String) (text : String)
  | logError (cid : Nat) (e : String)
deriving DecidableEq, Repr

/-- Execute the persistence/dispatch actions of a turn against the durable
store, in order, recording the effects. -/
def applyActions (st : DbState) (cid : Nat) : List Action → DbState × List Effect
  | [] => (st, [])
  | .add s p :: rest =>
    let ar := add_message st cid s p
    let tail := applyActions ar.1 cid rest
    (tail.1, .dbAdd ar.2 :: tail.2)
  | .send phone t :: rest =>
    let tail := applyActions st cid rest
    (tail.1, .sent phone t :: tail.2)

/-- The outcome of processing one queue item: the effect trace and the
caught exception, if any. -/
structure TurnResult where
  effects : List Effect
  err : Option String
deriving DecidableEq, Repr

/-- The rehydration step of `consume_messages` lines 179–204: read the
conversation's durable log, rebuild the transcript (any raised exception
propagates), and write it into the thread's checkpoint together with the
item's patient and conversation id (`aupdate_state`; the
`last_interaction_time` channel is not in the update payload and keeps its
previous value).  Only the checkpoint store changes. -/
def rehydrateInto (σ : SysState) (it : QueueItem) (litPrev : Option Nat) :
    Except String (Store × List Msg) :=
  match rehydrateRows (get_messages σ.db it.conversation_id) with
  | .error e => .error e
  | .ok hist =>
    .ok (insertStore σ.store it.conversation_id
          (some ⟨hist, litPrev, some it.patient, some it.conversation_id⟩), hist)

/-- Checkpoint resolution of `consume_messages` lines 175–204: use the
thread's in-memory transcript when present and nonempty, else rehydrate
from the durable log. -/
def resolveCheckpoint (σ : SysState) (it : QueueItem) : Except String (Store × List Msg) :=
  match lookupStore σ.store it.conversation_id with
  | some (some v) =>
    if v.messages.isEmpty then rehydrateInto σ it v.last_interaction_time
    else .ok (σ.store, v.messages)
  | _ => rehydrateInto σ it none

/-- The successful tail of one turn, given the resolved checkpoint store
and the full transcript `resp` left by the graph run: persist the inbound
user message (`consume_messages` line 207 — temporally this happens before
the planner runs, which the model's pure planner makes indistinguishable),
record the graph's checkpoint update (full transcript plus
`last_interaction_time := now`, the `update_timestamp` node), then classify,
persist and dispatch the generated messages (lines 212–247). -/
def finishTurn (σ : SysState) (it : QueueItem) (store1 : Store) (resp : List Msg) :
    SysState × TurnResult :=
  let ur := add_message σ.db it.conversation_id "user" (.text it.message)
  let db2 : DbState := { ur.1 with clock := ur.1.clock + 1 }
  let store2 := insertStore store1 it.conversation_id
      (some ⟨resp, some ur.1.clock, some it.patient, some it.conversation_id⟩)
  let ae := applyActions db2 it.conversation_id
      (processTurnActions it.patient.phone_number resp)
  (⟨ae.1, store2⟩, ⟨.dbAdd ur.2 :: ae.2, none⟩)

/-- Process one queue item, translating the body of the `while True` loop of
`consume_messages` (lines 163–253): resolve or rehydrate the checkpoint,
persist the inbound user message, run the planner (the opaque policy
engine, a parameter here) on the extended transcript, let the graph update
the checkpoint, classify and persist the generated messages and dispatch
the reply.  Any raised exception is caught, logged with the conversation
id, and the item is dropped with whatever durable writes already
happened. -/
def runTurn (plan : List Msg → Except String (List Msg)) (σ : SysState) (it : QueueItem) :
    SysState × TurnResult :=
  match resolveCheckpoint σ it with
  | .error e => (σ, ⟨[.logError it.conversation_id e], some e⟩)
  | .ok (store1, cpMsgs) =>
    match plan (cpMsgs ++ [.human it.message]) with
    | .error e =>
      let ur := add_message σ.db it.conversation_id "user" (.text it.message)
      (⟨ur.1, store1⟩, ⟨[.dbAdd ur.2, .logError it.conversation_id e], some e⟩)
    | .ok newMsgs => finishTurn σ it store1 (cpMsgs ++ [.human it.message] ++ newMsgs)

/-- The consumer loop over a finite queue prefix: process the items in FIFO
order, one at a time, threading the engine state; every item yields exactly
one `TurnResult`. -/
def consumeAll (plan : List Msg → Except String (List Msg)) :
    SysState → List QueueItem → SysState × List TurnResult
  | σ, [] => (σ, [])
  | σ, it :: rest =>
    let pr := runTurn plan σ it
    let tail := consumeAll plan pr.1 rest
    (tail.1, pr.2 :: tail.2)

/-- The engine state after consuming a queue prefix. -/
def consumeState (plan : List Msg → Except String (List Msg)) :
    SysState → List QueueItem → SysState
  | σ, [] => σ
  | σ, it :: rest => consumeState plan (runTurn plan σ it).1 rest

/-- The rows appended by a trace of effects, in order. -/
def dbRowsOf (es : List Effect) : List DbRow :=
  es.filterMap fun e => match e with
    | .dbAdd r => some r
    | _ => none

/-- One thread of one cycle of `conversation_cleanup_task` (lines 294–320):
if the thread's values carry a `last_interaction_time` older than the
threshold, re-check the durable status, close the conversation with reason
`timed_out` only if it is still open, and delete the thread; if the
snapshot or its values are empty, delete the thread; a thread with
nonempty values but no `last_interaction_time` matches neither branch and
is left untouched. -/
def sweepThread (threshold now : Nat) (db : DbState) (store : Store) (tid : Nat) :
    DbState × Store :=
  match lookupStore store tid with
  | some (some v) =>
    match v.last_interaction_time with
    | some t =>
      if t + threshold < now then
        let db2 :=
          match get_conversation db tid with
          | some c => if c.status = "open" then close_conversation db tid "timed_out" else db
          | none => db
        (db2, deleteStore store tid)
      else (db, store)
    | none => (db, store)
  | _ => (db, deleteStore store tid)

/-- Fold of `sweepThread` over a snapshot of thread ids. -/
def sweepThreads (threshold now : Nat) : DbState × Store → List Nat → DbState × Store
  | p, [] => p
  | p, tid :: rest => sweepThreads threshold now (sweepThread threshold now p.1 p.2 tid) rest

/-- One full cycle of the sweep: snapshot the thread ids currently in the
checkpointer, then visit each (lines 278–320). -/
def sweepCycle (threshold now : Nat) (db : DbState) (store : Store) : DbState × Store :=
  sweepThreads threshold now (db, store) (store.map Prod.fst)

/-- Spec-side typed form of one persisted entry, following the spec's
Rehydration mapping table: `user` to a user turn, `agent` (the stored tag
of an `agent_text` artifact) to an assistant text turn, `agent_tool_call`
to an assistant tool-call turn with the invocation list deserialized, and
`tool` to a tool-outcome turn with call id and payload deserialized. -/
def specTypedForm (r : DbRow) : Option Msg :=
  if r.sender = "user" then
    match r.payload with
    | .text s => some (.human s)
    | _ => none
  else if r.sender = "agent" then
    match r.payload with
    | .text s => some (.ai s [])
    | _ => none
  else if r.sender = "agent_tool_call" then
    match r.payload with
    | .toolCallsJson tcs => some (.ai "" tcs)
    | _ => none
  else if r.sender = "tool" then
    match r.payload with
    | .toolResultJson c cid => some (.tool c cid)
    | _ => none
  else none

/-- A persisted row as this engine itself writes them: one of the four
sender tags, with a payload of the matching shape. -/
def wfRow (r : DbRow) : Bool :=
  ((r.sender == "user" || r.sender == "agent")
      && match r.payload with | .text _ => true | _ => false)
    || (r.sender == "agent_tool_call"
      && match r.payload with | .toolCallsJson _ => true | _ => false)
    || (r.sender == "tool"
      && match r.payload with | .toolResultJson _ _ => true | _ => false)

/-! Concrete fixtures used to instantiate the theorems below. -/

/-- A concrete tool invocation request. -/
def tcBook : ToolCall := ⟨"book_appointment", "{}", "call_1"⟩

/-- A planner that always answers with the single text reply `hello`. -/
def planHello : List Msg → Except String (List Msg) := fun _ => .ok [.ai "hello" []]

/-- A concrete patient row. -/
def patientOne : PatientRow := ⟨1, "New Patient", none, none, "p1"⟩

/-- A second concrete patient row. -/
def patientTwo : PatientRow := ⟨2, "New Patient", none, none, "p2"⟩

/-- First queue item of conversation 1. -/
def itemA : QueueItem := ⟨1, patientOne, "a", 0⟩

/-- Second queue item of conversation 1. -/
def itemB : QueueItem := ⟨1, patientOne, "b", 0⟩

/-- A queue item of conversation 2. -/
def itemC : QueueItem := ⟨2, patientTwo, "hi", 0⟩

/-- The empty engine state. -/
def sysEmpty : SysState := ⟨⟨[], [], [], 0⟩, []⟩

/-- An engine state whose durable log holds one malformed `agent_tool_call`
row for conversation 1. -/
def sysBadRow : SysState := ⟨⟨[], [], [⟨1, 1, "agent_tool_call", .malformed "x", 0⟩], 1⟩, []⟩

/-- A durable state with the single open conversation 1. -/
def dbOpenConv : DbState := ⟨[], [⟨1, some 1, "open", 0, none, none⟩], [], 5⟩

/-- A checkpoint store whose only thread is idle since time 0. -/
def storeIdle : Store := [(1, some ⟨[.human "hi"], some 0, none, some 1⟩)]

/-- A checkpoint store with one empty-values thread and one thread that has
a nonempty transcript but no recorded interaction time. -/
def storeMixed : Store := [(3, none), (7, some ⟨[.human "x"], none, none, some 7⟩)]

/-! Lemmas and claim theorems. -/

lemma sendTexts_classify (phone : String) (m : Msg) :
    sendTexts (classifyMsg phone m) = (textReply m).toList := by
  cases m with
  | human c => simp [classifyMsg, sendTexts, textReply]
  | tool c cid => simp [classifyMsg, sendTexts, textReply]
  | ai c tcs =>
    by_cases h : tcs = []
    · by_cases h2 : c = "" <;> simp [classifyMsg, sendTexts, textReply, h, h2]
    · simp [classifyMsg, sendTexts, textReply, h]

lemma sendTexts_append (a b : List Action) :
    sendTexts (a ++ b) = sendTexts a ++ sendTexts b := by
  simp [sendTexts]

lemma sendTexts_flatten_map (phone : String) (ms : List Msg) :
    sendTexts ((ms.map (classifyMsg phone)).flatten) = ms.filterMap textReply := by
  induction ms with
  | nil => rfl
  | cons m rest ih =>
    simp only [List.map_cons, List.flatten_cons, sendTexts_append, sendTexts_classify, ih,
      List.filterMap_cons]
    cases textReply m <;> simp

/-- C1 (amended): the outbound texts of a turn are exactly the contents of
the `agent_text` messages (assistant messages with no tool calls and
nonempty text) produced after the last user message, one send per such
message in production order — not a single send of the last one; when the
transcript holds no user message at all, the single fallback send of the
last message's content is dispatched; a turn whose generated messages
contain no `agent_text` dispatches nothing. -/
theorem c1_outbound_sends (phone : String) (resp : List Msg) :
    sendTexts (processTurnActions phone resp) = specSends resp := by
  unfold processTurnActions specSends
  cases h : lastHumanIdx resp with
  | some i => simpa using sendTexts_flatten_map phone (resp.drop (i + 1))
  | none => cases h2 : resp.getLast? <;> simp [sendTexts]

/-- C1 counterexample: a graph-reachable turn (tool call, tool result, then
a final assistant message with empty text) dispatches zero outbound sends,
so the send is not invoked exactly once per turn, and the fallback does not
fire even though the turn produced no `agent_text` message. -/
theorem c1_counterexample :
    ¬ (sendTexts (processTurnActions "p"
        [.human "hi", .ai "" [tcBook], .tool "ok" "call_1", .ai "" []])).length = 1 := by
  decide

/-- C10: an assistant message carrying at least one tool invocation request
is persisted solely as an `agent_tool_call` row holding the serialized
tool-call list — its text content is neither persisted nor sent — and every
outbound send or `agent` text row produced by the classification loop comes
from an assistant message with no tool calls and nonempty text. -/
theorem c10_tool_request_persistence (phone c : String) (tcs : List ToolCall)
    (h : tcs ≠ []) :
    classifyMsg phone (.ai c tcs) = [.add "agent_tool_call" (.toolCallsJson tcs)]
    ∧ ∀ m a, a ∈ classifyMsg phone m →
        ((∃ q s, a = .send q s) ∨ ∃ s, a = .add "agent" (.text s)) →
        ∃ s, m = .ai s [] ∧ s ≠ "" := by
  refine ⟨by simp [classifyMsg, h], ?_⟩
  intro m a ha hk
  cases m with
  | human c2 => simp [classifyMsg] at ha
  | tool c2 i2 =>
    simp [classifyMsg] at ha
    subst ha
    rcases hk with ⟨q, s, hs⟩ | ⟨s, hs⟩ <;> simp at hs
  | ai c2 tcs2 =>
    by_cases h2 : tcs2 = []
    · subst h2
      by_cases h3 : c2 = ""
      · simp [classifyMsg, h3] at ha
      · simp [classifyMsg, h3] at ha
        exact ⟨c2, rfl, h3⟩
    · simp [classifyMsg, h2] at ha
      subst ha
      rcases hk with ⟨q, s, hs⟩ | ⟨s, hs⟩ <;> simp at hs

/-- C10 witness at a concrete tool-calling assistant message. -/
theorem c10_witness :
    ([tcBook] : List ToolCall) ≠ []
    ∧ classifyMsg "p" (.ai "thinking" [tcBook])
        = [.add "agent_tool_call" (.toolCallsJson [tcBook])] :=
  ⟨by decide, (c10_tool_request_persistence "p" "thinking" [tcBook] (by decide)).1⟩

/-- C2 (amended): persisting a transcript and rehydrating the resulting log
is the identity on transcripts whose assistant messages each carry either
tool calls with empty text or nonempty text with no tool calls — texts,
call ids and payloads are then preserved exactly.  (Text carried on a
tool-calling assistant message is dropped at persistence, and a text-free,
tool-free assistant message leaves no row, so the identity cannot hold
without this restriction; see the counterexample.) -/
theorem c2_persist_rehydrate_roundtrip (cid c0 : Nat) (t : List Msg)
    (h : ∀ m ∈ t, roundtripSafe m = true) :
    rehydrateRows (persistLog cid c0 t) = .ok t := by
  induction t generalizing c0 with
  | nil => rfl
  | cons m rest ih =>
    have hm := h m (List.mem_cons_self m rest)
    have hrest : ∀ x ∈ rest, roundtripSafe x = true := fun x hx => h x (List.mem_cons_of_mem _ hx)
    cases m with
    | human c =>
      simp [persistLog, persistRowOf, rehydrateRows, rehydrateRow, rawText, ih (c0 + 1) hrest]
    | tool c i =>
      simp [persistLog, persistRowOf, rehydrateRows, rehydrateRow, ih (c0 + 1) hrest]
    | ai c tcs =>
      by_cases htc : tcs = []
      · subst htc
        simp [roundtripSafe] at hm
        simp [persistLog, persistRowOf, hm, rehydrateRows, rehydrateRow, rawText,
          ih (c0 + 1) hrest]
      · have hc : c = "" := by
          simp [roundtripSafe, htc] at hm
          simpa using hm
        subst hc
        simp [persistLog, persistRowOf, htc, rehydrateRows, rehydrateRow, ih (c0 + 1) hrest]

/-- C2 witness: a transcript with all four message kinds in the forms this
worker itself produces round-trips exactly. -/
theorem c2_witness :
    (∀ m ∈ ([.human "hi", .ai "" [tcBook], .tool "ok" "call_1", .ai "done" []] : List Msg),
        roundtripSafe m = true)
    ∧ rehydrateRows (persistLog 1 0
        [.human "hi", .ai "" [tcBook], .tool "ok" "call_1", .ai "done" []])
      = .ok [.human "hi", .ai "" [tcBook], .tool "ok" "call_1", .ai "done" []] :=
  ⟨by decide, c2_persist_rehydrate_roundtrip 1 0 _ (by decide)⟩

/-- C2 counterexample: an assistant message that carries both text and a
tool call persists only the tool-call list, so rehydration returns it with
empty text — persist-then-rehydrate is not the identity on transcript
content. -/
theorem c2_counterexample :
    rehydrateRows (persistLog 1 0 [.ai "thinking" [tcBook]]) = .ok [.ai "" [tcBook]]
    ∧ (Msg.ai "" [tcBook]) ≠ .ai "thinking" [tcBook] :=
  ⟨rfl, by decide⟩

/-- C3: the rehydration loop has no per-entry exception handler, so a log
whose single `agent_tool_call` entry holds a malformed payload makes the
whole rehydration raise (aborting the turn at the per-item boundary) instead
of skipping that entry; dropping the malformed row by hand shows the other
two entries were individually recoverable. -/
theorem c3_malformed_entry_aborts_rehydration :
    rehydrateRows
        [⟨1, 1, "user", .text "hi", 0⟩,
         ⟨2, 1, "agent_tool_call", .malformed "oops", 1⟩,
         ⟨3, 1, "agent", .text "hello", 2⟩]
      = .error "json.loads failed on agent_tool_call payload"
    ∧ rehydrateRows
        [⟨1, 1, "user", .text "hi", 0⟩,
         ⟨3, 1, "agent", .text "hello", 2⟩]
      = .ok [.human "hi", .ai "hello" []] :=
  ⟨rfl, rfl⟩

lemma rehydrateRow_wf (r : DbRow) (h : wfRow r = true) :
    rehydrateRow r = .ok (specTypedForm r) ∧ (specTypedForm r).isSome = true := by
  obtain ⟨id, cid, s, p, ca⟩ := r
  cases p with
  | text s2 =>
    simp [wfRow] at h
    rcases h with h | h <;> subst h <;> exact ⟨rfl, rfl⟩
  | toolCallsJson tcs =>
    simp [wfRow] at h
    subst h
    exact ⟨rfl, rfl⟩
  | toolResultJson c cid2 =>
    simp [wfRow] at h
    subst h
    exact ⟨rfl, rfl⟩
  | malformed s2 =>
    simp [wfRow] at h

lemma rehydrateRows_wf (rows : List DbRow) (h : ∀ r ∈ rows, wfRow r = true) :
    rehydrateRows rows = .ok (rows.filterMap specTypedForm)
    ∧ (rows.filterMap specTypedForm).length = rows.length := by
  induction rows with
  | nil => exact ⟨rfl, rfl⟩
  | cons r rest ih =>
    have hr := rehydrateRow_wf r (h r (List.mem_cons_self r rest))
    have hrest := ih fun x hx => h x (List.mem_cons_of_mem _ hx)
    obtain ⟨a, ha⟩ := Option.isSome_iff_exists.mp hr.2
    constructor
    · simp [rehydrateRows, hr.1, hrest.1, List.filterMap_cons, ha]
    · simp [List.filterMap_cons, ha, hrest.2]

/-- C8: on a log whose rows carry the four sender tags this engine writes
(with payloads of the matching shapes), rehydration maps every entry, in
log order, to its typed transcript form — `user` to a user turn, `agent`
text to an assistant text turn, `agent_tool_call` to an assistant tool-call
turn with the invocation list deserialized, `tool` to a tool-outcome turn
with call id and payload deserialized — and an empty log yields an empty
transcript. -/
theorem c8_rehydration_mapping (db : DbState) (cid : Nat)
    (h : ∀ r ∈ get_messages db cid, wfRow r = true) :
    rehydrateRows (get_messages db cid) = .ok ((get_messages db cid).filterMap specTypedForm)
    ∧ ((get_messages db cid).filterMap specTypedForm).length = (get_messages db cid).length
    ∧ rehydrateRows [] = .ok [] :=
  ⟨(rehydrateRows_wf _ h).1, (rehydrateRows_wf _ h).2, rfl⟩

/-- C8 witness on a concrete four-entry log. -/
theorem c8_witness :
    (∀ r ∈ get_messages ⟨[], [],
        [⟨1, 1, "user", .text "hi", 0⟩,
         ⟨2, 1, "agent_tool_call", .toolCallsJson [tcBook], 1⟩,
         ⟨3, 1, "tool", .toolResultJson "ok" "call_1", 2⟩,
         ⟨4, 1, "agent", .text "done", 3⟩], 4⟩ 1, wfRow r = true)
    ∧ rehydrateRows (get_messages ⟨[], [],
        [⟨1, 1, "user", .text "hi", 0⟩,
         ⟨2, 1, "agent_tool_call", .toolCallsJson [tcBook], 1⟩,
         ⟨3, 1, "tool", .toolResultJson "ok" "call_1", 2⟩,
         ⟨4, 1, "agent", .text "done", 3⟩], 4⟩ 1)
      = .ok [.human "hi", .ai "" [tcBook], .tool "ok" "call_1", .ai "done" []] := by
  refine ⟨by decide, ?_⟩
  have h := (c8_rehydration_mapping ⟨[], [],
        [⟨1, 1, "user", .text "hi", 0⟩,
         ⟨2, 1, "agent_tool_call", .toolCallsJson [tcBook], 1⟩,
         ⟨3, 1, "tool", .toolResultJson "ok" "call_1", 2⟩,
         ⟨4, 1, "agent", .text "done", 3⟩], 4⟩ 1 (by decide)).1
  simpa using h

lemma openCount_eq_zero_of_no_open (st : DbState) (pid0 : Nat)
    (h0 : get_open_conversation st pid0 = none) : openCount st pid0 = 0 := by
  have hf : (st.conversations.filter fun c => c.status == "open" && c.patient_id == some pid0) = [] :=
    List.getLast?_eq_none_iff.mp h0
  simp [openCount, List.countP_eq_length_filter, hf]

lemma openCount_create_conversation (st : DbState) (pid0 : Nat)
    (hinv : ∀ pid, openCount st pid ≤ 1)
    (h0 : get_open_conversation st pid0 = none) :
    ∀ pid, openCount (create_conversation st (some pid0)).1 pid ≤ 1 := by
  intro pid
  have hz := openCount_eq_zero_of_no_open st pid0 h0
  have hsplit : openCount (create_conversation st (some pid0)).1 pid
      = openCount st pid + (if pid0 = pid then 1 else 0) := by
    unfold openCount create_conversation
    simp only [List.countP_append, List.countP_cons, List.countP_nil]
    by_cases hp : pid0 = pid
    · subst hp
      simp
    · have hne : (some pid0 == some pid) = false := by
        simp only [beq_eq_false_iff_ne, ne_eq, Option.some.injEq]
        exact hp
      simp [hne, hp]
  rw [hsplit]
  by_cases hp : pid0 = pid
  · subst hp
    rw [if_pos rfl]
    omega
  · rw [if_neg hp]
    have := hinv pid
    omega

/-- C9 statement. -/
theorem c9_intake_invariant (st : DbState) (q : List QueueItem) (phone message : String)
    (hinv : ∀ pid, openCount st pid ≤ 1) :
    (∀ pid, openCount (enqueue_message st q phone message).1 pid ≤ 1)
    ∧ (get_patient_by_phone st phone = none →
        (enqueue_message st q phone message).1.patients
          = st.patients ++ [⟨st.patients.length + 1, "New Patient", none, none, phone⟩])
    ∧ ∀ p, get_patient_by_phone st phone = some p →
        (enqueue_message st q phone message).1.patients = st.patients
        ∧ ∀ c, get_open_conversation st p.id = some c →
            (enqueue_message st q phone message).1.conversations = st.conversations := by
  cases hp : get_patient_by_phone st phone with
  | some p =>
    cases hc : get_open_conversation st p.id with
    | some c =>
      have h1 : enqueue_message st q phone message
          = ({ st with clock := st.clock + 1 }, q ++ [⟨c.id, p, message, st.clock⟩]) := by
        simp only [enqueue_message, hp, hc]
      refine ⟨?_, ?_, ?_⟩
      · intro pid
        rw [h1]
        exact hinv pid
      · intro h
        exact Option.noConfusion h
      · intro p2 hp2
        have hpp : p = p2 := Option.some.inj hp2
        subst hpp
        rw [h1]
        exact ⟨rfl, fun c2 _ => rfl⟩
    | none =>
      have h1 : enqueue_message st q phone message
          = ({ (create_conversation st (some p.id)).1 with
                clock := (create_conversation st (some p.id)).1.clock + 1 },
             q ++ [⟨(create_conversation st (some p.id)).2.id, p, message,
                (create_conversation st (some p.id)).1.clock⟩]) := by
        simp only [enqueue_message, hp, hc]
      refine ⟨?_, ?_, ?_⟩
      · intro pid
        rw [h1]
        exact openCount_create_conversation st p.id hinv hc pid
      · intro h
        exact Option.noConfusion h
      · intro p2 hp2
        have hpp : p = p2 := Option.some.inj hp2
        subst hpp
        rw [h1]
        refine ⟨rfl, fun c2 hc2 => ?_⟩
        rw [hc] at hc2
        exact Option.noConfusion hc2
  | none =>
    have hinv1 : ∀ pid, openCount (create_patient st "New Patient" none none phone).1 pid ≤ 1 :=
      fun pid => hinv pid
    cases hc : get_open_conversation (create_patient st "New Patient" none none phone).1
        (create_patient st "New Patient" none none phone).2.id with
    | some c =>
      have h1 : enqueue_message st q phone message
          = ({ (create_patient st "New Patient" none none phone).1 with
                clock := (create_patient st "New Patient" none none phone).1.clock + 1 },
             q ++ [⟨c.id, (create_patient st "New Patient" none none phone).2, message,
                (create_patient st "New Patient" none none phone).1.clock⟩]) := by
        simp only [enqueue_message, hp, hc]
      refine ⟨?_, ?_, ?_⟩
      · intro pid
        rw [h1]
        exact hinv pid
      · intro _
        rw [h1]
        rfl
      · intro p2 hp2
        exact Option.noConfusion hp2
    | none =>
      have h1 : enqueue_message st q phone message
          = ({ (create_conversation (create_patient st "New Patient" none none phone).1
                  (some (create_patient st "New Patient" none none phone).2.id)).1 with
                clock := (create_conversation (create_patient st "New Patient" none none phone).1
                  (some (create_patient st "New Patient" none none phone).2.id)).1.clock + 1 },
             q ++ [⟨(create_conversation (create_patient st "New Patient" none none phone).1
                  (some (create_patient st "New Patient" none none phone).2.id)).2.id,
                (create_patient st "New Patient" none none phone).2, message,
                (create_conversation (create_patient st "New Patient" none none phone).1
                  (some (create_patient st "New Patient" none none phone).2.id)).1.clock⟩]) := by
        simp only [enqueue_message, hp, hc]
      refine ⟨?_, ?_, ?_⟩
      · intro pid
        rw [h1]
        exact openCount_create_conversation _ _ hinv1 hc pid
      · intro _
        rw [h1]
        rfl
      · intro p2 hp2
        exact Option.noConfusion hp2

/-- C9 witness: a fresh phone number on an empty store creates a
placeholder patient, and the invariant holds afterwards. -/
theorem c9_witness :
    (∀ pid, openCount ⟨[], [], [], 0⟩ pid ≤ 1)
    ∧ (∀ pid, openCount (enqueue_message ⟨[], [], [], 0⟩ [] "p9" "hello").1 pid ≤ 1)
    ∧ (enqueue_message ⟨[], [], [], 0⟩ [] "p9" "hello").1.patients
        = [⟨1, "New Patient", none, none, "p9"⟩] := by
  have h0 : ∀ pid, openCount ⟨[], [], [], 0⟩ pid ≤ 1 := by
    intro pid
    simp [openCount]
  have h := c9_intake_invariant ⟨[], [], [], 0⟩ [] "p9" "hello" h0
  exact ⟨h0, h.1, by simpa using h.2.1 rfl⟩

lemma lookupStore_cons (e : Nat × Option CpVal) (rest : Store) (tid : Nat) :
    lookupStore (e :: rest) tid = if e.1 = tid then some e.2 else lookupStore rest tid := by
  unfold lookupStore
  by_cases h : e.1 = tid
  · simp [List.find?_cons, h]
  · simp [List.find?_cons, h]

lemma deleteStore_cons (e : Nat × Option CpVal) (rest : Store) (tid : Nat) :
    deleteStore (e :: rest) tid
      = if e.1 = tid then deleteStore rest tid else e :: deleteStore rest tid := by
  unfold deleteStore
  by_cases h : e.1 = tid <;> simp [List.filter_cons, h]

lemma lookup_delete (s : Store) (a tid : Nat) :
    lookupStore (deleteStore s a) tid = if a = tid then none else lookupStore s tid := by
  induction s with
  | nil =>
    by_cases h : a = tid <;> simp [h, deleteStore, lookupStore]
  | cons e rest ih =>
    rw [deleteStore_cons]
    by_cases h1 : e.1 = a
    · rw [if_pos h1, ih]
      by_cases h2 : a = tid
      · simp [h2]
      · have h3 : ¬ e.1 = tid := h1 ▸ h2
        simp [h2, lookupStore_cons, h3]
    · rw [if_neg h1, lookupStore_cons, lookupStore_cons]
      by_cases h2 : e.1 = tid
      · have h3 : ¬ a = tid := fun he => h1 (h2.trans he.symm)
        rw [if_pos h2, if_neg h3, if_pos h2]
      · rw [if_neg h2, if_neg h2, ih]

lemma lookup_mem (s : Store) (tid : Nat) (w : Option CpVal)
    (h : lookupStore s tid = some w) : tid ∈ s.map Prod.fst := by
  induction s with
  | nil => simp [lookupStore] at h
  | cons e rest ih =>
    rw [lookupStore_cons] at h
    by_cases he : e.1 = tid
    · simp [he]
    · rw [if_neg he] at h
      exact List.mem_cons_of_mem _ (ih h)

lemma find?_cons_eq (p : ConversationRow → Bool) (c : ConversationRow)
    (l : List ConversationRow) :
    (c :: l).find? p = if p c then some c else l.find? p := by
  by_cases h : p c <;> simp [List.find?_cons, h]

lemma find_close_aux (l : List ConversationRow) (a b k : Nat) (reason : String) :
    (l.map fun c => if c.id = a
        then { c with status := "closed", ended_at := some k, closed_reason := some reason }
        else c).find? (fun c => c.id == b)
      = if a = b
        then (l.find? fun c => c.id == b).map
          (fun c => { c with status := "closed", ended_at := some k, closed_reason := some reason })
        else l.find? fun c => c.id == b := by
  induction l with
  | nil => by_cases h : a = b <;> simp [h]
  | cons c rest ih =>
    rw [List.map_cons]
    simp only [find?_cons_eq]
    by_cases hca : c.id = a
    · by_cases hab : a = b
      · subst hab
        simp [hca, ih]
      · simp [hca, hab, ih]
    · by_cases hcb : c.id = b
      · have hab : ¬ a = b := fun he => hca (hcb.trans he.symm)
        have hba : ¬ b = a := fun he => hab he.symm
        simp [hca, hcb, hab, hba]
      · by_cases hab : a = b
        · subst hab
          simp [hca, hcb, ih]
        · simp [hca, hcb, hab, ih]

lemma get_conversation_close (db : DbState) (a b : Nat) (reason : String) :
    get_conversation (close_conversation db a reason) b
      = if a = b
        then (get_conversation db b).map
          (fun c => { c with status := "closed", ended_at := some db.clock, closed_reason := some reason })
        else get_conversation db b := by
  unfold get_conversation close_conversation
  exact find_close_aux db.conversations a b db.clock reason

lemma sweepThread_absent (threshold now : Nat) (db : DbState) (store : Store) (a : Nat)
    (h : lookupStore store a = none) :
    sweepThread threshold now db store a = (db, deleteStore store a) := by
  simp [sweepThread, h]

lemma sweepThread_emptyVals (threshold now : Nat) (db : DbState) (store : Store) (a : Nat)
    (h : lookupStore store a = some none) :
    sweepThread threshold now db store a = (db, deleteStore store a) := by
  simp [sweepThread, h]

lemma sweepThread_noLit (threshold now : Nat) (db : DbState) (store : Store) (a : Nat)
    (v : CpVal) (h : lookupStore store a = some (some v))
    (h2 : v.last_interaction_time = none) :
    sweepThread threshold now db store a = (db, store) := by
  simp [sweepThread, h, h2]

lemma sweepThread_fresh (threshold now : Nat) (db : DbState) (store : Store) (a : Nat)
    (v : CpVal) (t : Nat) (h : lookupStore store a = some (some v))
    (h2 : v.last_interaction_time = some t) (h3 : ¬ t + threshold < now) :
    sweepThread threshold now db store a = (db, store) := by
  simp [sweepThread, h, h2, h3]

lemma sweepThread_timeout (threshold now : Nat) (db : DbState) (store : Store) (a : Nat)
    (v : CpVal) (t : Nat) (h : lookupStore store a = some (some v))
    (h2 : v.last_interaction_time = some t) (h3 : t + threshold < now) :
    sweepThread threshold now db store a
      = (match get_conversation db a with
         | some c => if c.status = "open" then close_conversation db a "timed_out" else db
         | none => db,
         deleteStore store a) := by
  simp [sweepThread, h, h2, h3]


lemma sweepThread_preserve (threshold now : Nat) (db : DbState) (store : Store)
    (a tid : Nat) (h : a ≠ tid) :
    lookupStore (sweepThread threshold now db store a).2 tid = lookupStore store tid
    ∧ get_conversation (sweepThread threshold now db store a).1 tid = get_conversation db tid := by
  cases hl : lookupStore store a with
  | none =>
    rw [sweepThread_absent threshold now db store a hl]
    exact ⟨by rw [lookup_delete, if_neg h], rfl⟩
  | some o =>
    cases o with
    | none =>
      rw [sweepThread_emptyVals threshold now db store a hl]
      exact ⟨by rw [lookup_delete, if_neg h], rfl⟩
    | some v =>
      cases hlit : v.last_interaction_time with
      | none =>
        rw [sweepThread_noLit threshold now db store a v hl hlit]
        exact ⟨rfl, rfl⟩
      | some t =>
        by_cases hidle : t + threshold < now
        · rw [sweepThread_timeout threshold now db store a v t hl hlit hidle]
          refine ⟨by rw [lookup_delete, if_neg h], ?_⟩
          cases hgc : get_conversation db a with
          | none => rfl
          | some c =>
            by_cases hst : c.status = "open"
            · simp only [hst, if_pos]
              rw [get_conversation_close, if_neg h]
            · simp only [hst, if_neg, ite_false]
        · rw [sweepThread_fresh threshold now db store a v t hl hlit hidle]
          exact ⟨rfl, rfl⟩

lemma sweepThreads_preserve (threshold now : Nat) (ids : List Nat) (p : DbState × Store)
    (tid : Nat) (h : tid ∉ ids) :
    lookupStore (sweepThreads threshold now p ids).2 tid = lookupStore p.2 tid
    ∧ get_conversation (sweepThreads threshold now p ids).1 tid = get_conversation p.1 tid := by
  induction ids generalizing p with
  | nil => exact ⟨rfl, rfl⟩
  | cons a rest ih =>
    have ha : a ≠ tid := fun he => h (he ▸ List.mem_cons_self a rest)
    have h2 : tid ∉ rest := fun hm => h (List.mem_cons_of_mem _ hm)
    have hp := sweepThread_preserve threshold now p.1 p.2 a tid ha
    have hr := ih (sweepThread threshold now p.1 p.2 a) h2
    exact ⟨hr.1.trans hp.1, hr.2.trans hp.2⟩

lemma sweepThreads_append (threshold now : Nat) (p : DbState × Store) (xs ys : List Nat) :
    sweepThreads threshold now p (xs ++ ys)
      = sweepThreads threshold now (sweepThreads threshold now p xs) ys := by
  induction xs generalizing p with
  | nil => rfl
  | cons a rest ih => exact ih _

lemma nodup_split_middle (l1 l2 : List Nat) (a : Nat) (h : (l1 ++ a :: l2).Nodup) :
    a ∉ l1 ∧ a ∉ l2 := by
  rw [List.nodup_append] at h
  exact ⟨fun hm => h.2.2 hm (List.mem_cons_self a l2), (List.nodup_cons.mp h.2.1).1⟩


/-- C5: in every sweep cycle, a checkpoint whose `last_interaction_time` is
older than the idle threshold is removed from the checkpoint store, and the
durable conversation is transitioned to `closed` with reason `timed_out`
only when its durable status is still `open` at the time of the re-check;
a conversation already closed (or missing) is left untouched, with no
exception raised. -/
theorem c5_sweep_guarded_close (threshold now : Nat) (db : DbState) (store : Store)
    (tid : Nat) (v : CpVal) (t : Nat)
    (hnd : (store.map Prod.fst).Nodup)
    (hv : lookupStore store tid = some (some v))
    (ht : v.last_interaction_time = some t)
    (hidle : t + threshold < now) :
    lookupStore (sweepCycle threshold now db store).2 tid = none
    ∧ (∀ c, get_conversation db tid = some c → c.status = "open" →
        ∃ e, get_conversation (sweepCycle threshold now db store).1 tid
          = some { c with status := "closed", ended_at := some e, closed_reason := some "timed_out" })
    ∧ (∀ c, get_conversation db tid = some c → c.status ≠ "open" →
        get_conversation (sweepCycle threshold now db store).1 tid = some c)
    ∧ (get_conversation db tid = none →
        get_conversation (sweepCycle threshold now db store).1 tid = none) := by
  obtain ⟨l1, l2, hids⟩ := List.append_of_mem (lookup_mem store tid (some v) hv)
  have hnodup : (l1 ++ tid :: l2).Nodup := hids ▸ hnd
  obtain ⟨h1, h2⟩ := nodup_split_middle l1 l2 tid hnodup
  have hpre := sweepThreads_preserve threshold now l1 (db, store) tid h1
  have hvp : lookupStore (sweepThreads threshold now (db, store) l1).2 tid = some (some v) :=
    hpre.1.trans hv
  have hcyc : sweepCycle threshold now db store
      = sweepThreads threshold now
          (sweepThread threshold now
            (sweepThreads threshold now (db, store) l1).1
            (sweepThreads threshold now (db, store) l1).2 tid) l2 := by
    unfold sweepCycle
    rw [hids, sweepThreads_append]
    rfl
  have hpost := sweepThreads_preserve threshold now l2
      (sweepThread threshold now
        (sweepThreads threshold now (db, store) l1).1
        (sweepThreads threshold now (db, store) l1).2 tid) tid h2
  have hstep := sweepThread_timeout threshold now
      (sweepThreads threshold now (db, store) l1).1
      (sweepThreads threshold now (db, store) l1).2 tid v t hvp ht hidle
  refine ⟨?_, ?_, ?_, ?_⟩
  · rw [hcyc, hpost.1, hstep]
    rw [show (match get_conversation (sweepThreads threshold now (db, store) l1).1 tid with
        | some c => if c.status = "open"
            then close_conversation (sweepThreads threshold now (db, store) l1).1 tid "timed_out"
            else (sweepThreads threshold now (db, store) l1).1
        | none => (sweepThreads threshold now (db, store) l1).1,
        deleteStore (sweepThreads threshold now (db, store) l1).2 tid).2
      = deleteStore (sweepThreads threshold now (db, store) l1).2 tid from rfl]
    rw [lookup_delete, if_pos rfl]
  · intro c hc hopen
    have hgc : get_conversation (sweepThreads threshold now (db, store) l1).1 tid = some c :=
      hpre.2.trans hc
    refine ⟨(sweepThreads threshold now (db, store) l1).1.clock, ?_⟩
    rw [hcyc, hpost.2, hstep]
    simp only [hgc, hopen, if_pos]
    rw [get_conversation_close, if_pos rfl, hgc]
    rfl
  · intro c hc hclosed
    have hgc : get_conversation (sweepThreads threshold now (db, store) l1).1 tid = some c :=
      hpre.2.trans hc
    rw [hcyc, hpost.2, hstep]
    simp only [hgc, hclosed, ite_false, if_neg]
  · intro hc
    have hgc : get_conversation (sweepThreads threshold now (db, store) l1).1 tid = none :=
      hpre.2.trans hc
    rw [hcyc, hpost.2, hstep]
    simp only [hgc]


/-- C5 witness: an idle thread over a still-open conversation is closed
with reason `timed_out`, and the checkpoint is removed. -/
theorem c5_witness :
    lookupStore (sweepCycle 10 100 dbOpenConv storeIdle).2 1 = none
    ∧ ∃ e, get_conversation (sweepCycle 10 100 dbOpenConv storeIdle).1 1
        = some ⟨1, some 1, "closed", 0, some e, some "timed_out"⟩ := by
  have h := c5_sweep_guarded_close 10 100 dbOpenConv storeIdle 1
    ⟨[.human "hi"], some 0, none, some 1⟩ 0 (by decide) (by decide) rfl (by decide)
  exact ⟨h.1, h.2.1 ⟨1, some 1, "open", 0, none, none⟩ rfl rfl⟩

/-- C6 (amended): in every sweep cycle, a checkpoint whose snapshot or
state values are empty is evicted unconditionally without touching the
durable conversation; but a checkpoint with nonempty state values that
merely lacks a `last_interaction_time` matches neither branch of the sweep
and is left in place (not evicted, durable record also untouched). -/
theorem c6_lingering_checkpoints (threshold now : Nat) (db : DbState) (store : Store)
    (tid : Nat) (hnd : (store.map Prod.fst).Nodup) :
    (lookupStore store tid = some none →
      lookupStore (sweepCycle threshold now db store).2 tid = none
      ∧ get_conversation (sweepCycle threshold now db store).1 tid = get_conversation db tid)
    ∧ ∀ v, lookupStore store tid = some (some v) → v.last_interaction_time = none →
      lookupStore (sweepCycle threshold now db store).2 tid = some (some v)
      ∧ get_conversation (sweepCycle threshold now db store).1 tid = get_conversation db tid := by
  constructor
  · intro hv
    obtain ⟨l1, l2, hids⟩ := List.append_of_mem (lookup_mem store tid none hv)
    have hnodup : (l1 ++ tid :: l2).Nodup := hids ▸ hnd
    obtain ⟨h1, h2⟩ := nodup_split_middle l1 l2 tid hnodup
    have hpre := sweepThreads_preserve threshold now l1 (db, store) tid h1
    have hvp : lookupStore (sweepThreads threshold now (db, store) l1).2 tid = some none :=
      hpre.1.trans hv
    have hcyc : sweepCycle threshold now db store
        = sweepThreads threshold now
            (sweepThread threshold now
              (sweepThreads threshold now (db, store) l1).1
              (sweepThreads threshold now (db, store) l1).2 tid) l2 := by
      unfold sweepCycle
      rw [hids, sweepThreads_append]
      rfl
    have hpost := sweepThreads_preserve threshold now l2
        (sweepThread threshold now
          (sweepThreads threshold now (db, store) l1).1
          (sweepThreads threshold now (db, store) l1).2 tid) tid h2
    have hstep := sweepThread_emptyVals threshold now
        (sweepThreads threshold now (db, store) l1).1
        (sweepThreads threshold now (db, store) l1).2 tid hvp
    constructor
    · rw [hcyc, hpost.1, hstep, lookup_delete, if_pos rfl]
    · rw [hcyc, hpost.2, hstep]
      exact hpre.2
  · intro v hv hlit
    obtain ⟨l1, l2, hids⟩ := List.append_of_mem (lookup_mem store tid (some v) hv)
    have hnodup : (l1 ++ tid :: l2).Nodup := hids ▸ hnd
    obtain ⟨h1, h2⟩ := nodup_split_middle l1 l2 tid hnodup
    have hpre := sweepThreads_preserve threshold now l1 (db, store) tid h1
    have hvp : lookupStore (sweepThreads threshold now (db, store) l1).2 tid = some (some v) :=
      hpre.1.trans hv
    have hcyc : sweepCycle threshold now db store
        = sweepThreads threshold now
            (sweepThread threshold now
              (sweepThreads threshold now (db, store) l1).1
              (sweepThreads threshold now (db, store) l1).2 tid) l2 := by
      unfold sweepCycle
      rw [hids, sweepThreads_append]
      rfl
    have hpost := sweepThreads_preserve threshold now l2
        (sweepThread threshold now
          (sweepThreads threshold now (db, store) l1).1
          (sweepThreads threshold now (db, store) l1).2 tid) tid h2
    have hstep := sweepThread_noLit threshold now
        (sweepThreads threshold now (db, store) l1).1
        (sweepThreads threshold now (db, store) l1).2 tid v hvp hlit
    constructor
    · rw [hcyc, hpost.1, hstep]
      exact hvp
    · rw [hcyc, hpost.2, hstep]
      exact hpre.2

/-- C6 witness: the empty-values thread 3 is evicted; the thread 7 with a
nonempty transcript but no interaction time survives the cycle; neither
touches the durable store. -/
theorem c6_witness :
    lookupStore (sweepCycle 1 1000 sysEmpty.db storeMixed).2 3 = none
    ∧ lookupStore (sweepCycle 1 1000 sysEmpty.db storeMixed).2 7
        = some (some ⟨[.human "x"], none, none, some 7⟩) := by
  have h3 := (c6_lingering_checkpoints 1 1000 sysEmpty.db storeMixed 3 (by decide)).1 rfl
  have h7 := (c6_lingering_checkpoints 1 1000 sysEmpty.db storeMixed 7 (by decide)).2
    ⟨[.human "x"], none, none, some 7⟩ rfl rfl
  exact ⟨h3.1, h7.1⟩

/-- C6 counterexample: a checkpoint with a nonempty transcript but no
`last_interaction_time` is not evicted by the sweep, contradicting the
claimed unconditional eviction. -/
theorem c6_counterexample :
    lookupStore (sweepCycle 1 1000 ⟨[], [], [], 0⟩
        [(7, some ⟨[.human "x"], none, none, some 7⟩)]).2 7 ≠ none := by
  decide

lemma add_message_fst_log (st : DbState) (cid : Nat) (s : String) (p : DbPayload) :
    (add_message st cid s p).1.log = st.log ++ [(add_message st cid s p).2] := rfl

lemma add_message_fst_clock (st : DbState) (cid : Nat) (s : String) (p : DbPayload) :
    (add_message st cid s p).1.clock = st.clock + 1 := rfl

lemma add_message_snd_created (st : DbState) (cid : Nat) (s : String) (p : DbPayload) :
    (add_message st cid s p).2.created_at = st.clock := rfl

lemma dbRowsOf_cons_add (r : DbRow) (es : List Effect) :
    dbRowsOf (.dbAdd r :: es) = r :: dbRowsOf es := rfl

lemma dbRowsOf_cons_sent (q txt : String) (es : List Effect) :
    dbRowsOf (.sent q txt :: es) = dbRowsOf es := rfl

lemma dbRowsOf_cons_log (cid : Nat) (e : String) (es : List Effect) :
    dbRowsOf (.logError cid e :: es) = dbRowsOf es := rfl

lemma applyActions_spec (cid : Nat) (acts : List Action) : ∀ st : DbState,
    (applyActions st cid acts).1.log = st.log ++ dbRowsOf (applyActions st cid acts).2
    ∧ st.clock ≤ (applyActions st cid acts).1.clock
    ∧ ∀ r ∈ dbRowsOf (applyActions st cid acts).2,
        st.clock ≤ r.created_at ∧ r.created_at < (applyActions st cid acts).1.clock := by
  induction acts with
  | nil =>
    intro st
    exact ⟨by simp [applyActions, dbRowsOf], le_refl _, by simp [applyActions, dbRowsOf]⟩
  | cons a rest ih =>
    intro st
    cases a with
    | add s p =>
      have ha := ih (add_message st cid s p).1
      refine ⟨?_, ?_, ?_⟩
      · show (applyActions (add_message st cid s p).1 cid rest).1.log
            = st.log ++ dbRowsOf (.dbAdd (add_message st cid s p).2
                :: (applyActions (add_message st cid s p).1 cid rest).2)
        rw [dbRowsOf_cons_add, ha.1, add_message_fst_log]
        simp
      · show st.clock ≤ (applyActions (add_message st cid s p).1 cid rest).1.clock
        have h1 := ha.2.1
        rw [add_message_fst_clock] at h1
        omega
      · show ∀ r ∈ dbRowsOf (.dbAdd (add_message st cid s p).2
            :: (applyActions (add_message st cid s p).1 cid rest).2),
          st.clock ≤ r.created_at
          ∧ r.created_at < (applyActions (add_message st cid s p).1 cid rest).1.clock
        rw [dbRowsOf_cons_add]
        intro r hr
        rcases List.mem_cons.mp hr with h | h
        · subst h
          have h1 := ha.2.1
          rw [add_message_fst_clock] at h1
          rw [add_message_snd_created]
          omega
        · have h3 := ha.2.2 r h
          have h4 := add_message_fst_clock st cid s p
          omega
    | send q txt =>
      have ha := ih st
      refine ⟨?_, ha.2.1, ?_⟩
      · show (applyActions st cid rest).1.log
            = st.log ++ dbRowsOf (.sent q txt :: (applyActions st cid rest).2)
        rw [dbRowsOf_cons_sent]
        exact ha.1
      · show ∀ r ∈ dbRowsOf (.sent q txt :: (applyActions st cid rest).2),
          st.clock ≤ r.created_at ∧ r.created_at < (applyActions st cid rest).1.clock
        rw [dbRowsOf_cons_sent]
        exact ha.2.2

lemma finishTurn_fst_db (σ : SysState) (it : QueueItem) (store1 : Store) (resp : List Msg) :
    (finishTurn σ it store1 resp).1.db
      = (applyActions { (add_message σ.db it.conversation_id "user" (.text it.message)).1 with
            clock := (add_message σ.db it.conversation_id "user" (.text it.message)).1.clock + 1 }
          it.conversation_id (processTurnActions it.patient.phone_number resp)).1 := rfl

lemma finishTurn_effects (σ : SysState) (it : QueueItem) (store1 : Store) (resp : List Msg) :
    (finishTurn σ it store1 resp).2.effects
      = .dbAdd (add_message σ.db it.conversation_id "user" (.text it.message)).2
        :: (applyActions { (add_message σ.db it.conversation_id "user" (.text it.message)).1 with
              clock := (add_message σ.db it.conversation_id "user" (.text it.message)).1.clock + 1 }
            it.conversation_id (processTurnActions it.patient.phone_number resp)).2 := rfl

lemma finishTurn_err (σ : SysState) (it : QueueItem) (store1 : Store) (resp : List Msg) :
    (finishTurn σ it store1 resp).2.err = none := rfl

lemma db2_log (σ : SysState) (it : QueueItem) :
    ({ (add_message σ.db it.conversation_id "user" (.text it.message)).1 with
        clock := (add_message σ.db it.conversation_id "user" (.text it.message)).1.clock + 1 } : DbState).log
      = σ.db.log ++ [(add_message σ.db it.conversation_id "user" (.text it.message)).2] := rfl

lemma db2_clock (σ : SysState) (it : QueueItem) :
    ({ (add_message σ.db it.conversation_id "user" (.text it.message)).1 with
        clock := (add_message σ.db it.conversation_id "user" (.text it.message)).1.clock + 1 } : DbState).clock
      = σ.db.clock + 2 := rfl

lemma finishTurn_spec (σ : SysState) (it : QueueItem) (store1 : Store) (resp : List Msg) :
    (finishTurn σ it store1 resp).1.db.log
      = σ.db.log ++ dbRowsOf (finishTurn σ it store1 resp).2.effects
    ∧ σ.db.clock ≤ (finishTurn σ it store1 resp).1.db.clock
    ∧ ∀ r ∈ dbRowsOf (finishTurn σ it store1 resp).2.effects,
        σ.db.clock ≤ r.created_at ∧ r.created_at < (finishTurn σ it store1 resp).1.db.clock := by
  have ha := applyActions_spec it.conversation_id
    (processTurnActions it.patient.phone_number resp)
    { (add_message σ.db it.conversation_id "user" (.text it.message)).1 with
      clock := (add_message σ.db it.conversation_id "user" (.text it.message)).1.clock + 1 }
  rw [finishTurn_fst_db, finishTurn_effects, dbRowsOf_cons_add]
  have hl2 := db2_log σ it
  have hc2 := db2_clock σ it
  refine ⟨?_, ?_, ?_⟩
  · rw [ha.1, hl2]
    simp
  · have h1 := ha.2.1
    rw [hc2] at h1
    omega
  · intro r hr
    rcases List.mem_cons.mp hr with h | h
    · subst h
      have h1 := ha.2.1
      rw [hc2] at h1
      rw [add_message_snd_created]
      omega
    · have h3 := ha.2.2 r h
      rw [hc2] at h3
      exact ⟨by omega, h3.2⟩

lemma runTurn_spec (plan : List Msg → Except String (List Msg)) (σ : SysState)
    (it : QueueItem) :
    (runTurn plan σ it).1.db.log = σ.db.log ++ dbRowsOf (runTurn plan σ it).2.effects
    ∧ σ.db.clock ≤ (runTurn plan σ it).1.db.clock
    ∧ ∀ r ∈ dbRowsOf (runTurn plan σ it).2.effects,
        σ.db.clock ≤ r.created_at ∧ r.created_at < (runTurn plan σ it).1.db.clock := by
  cases hcp : resolveCheckpoint σ it with
  | error e =>
    simp only [runTurn, hcp]
    exact ⟨by simp [dbRowsOf], le_refl _, by simp [dbRowsOf]⟩
  | ok pr =>
    obtain ⟨store1, cpMsgs⟩ := pr
    cases hpl : plan (cpMsgs ++ [.human it.message]) with
    | error e =>
      simp only [runTurn, hcp, hpl]
      refine ⟨?_, ?_, ?_⟩
      · rw [dbRowsOf_cons_add, dbRowsOf_cons_log, add_message_fst_log]
        rfl
      · rw [add_message_fst_clock]
        omega
      · rw [dbRowsOf_cons_add, dbRowsOf_cons_log]
        intro r hr
        rcases List.mem_cons.mp hr with h | h
        · subst h
          rw [add_message_snd_created, add_message_fst_clock]
          omega
        · simp [dbRowsOf] at h
    | ok newMsgs =>
      simp only [runTurn, hcp, hpl]
      exact finishTurn_spec σ it store1 (cpMsgs ++ [.human it.message] ++ newMsgs)


lemma runTurn_err_logs (plan : List Msg → Except String (List Msg)) (σ : SysState)
    (it : QueueItem) (e : String) (h : (runTurn plan σ it).2.err = some e) :
    (runTurn plan σ it).2.effects.getLast? = some (.logError it.conversation_id e) := by
  cases hcp : resolveCheckpoint σ it with
  | error e2 =>
    simp only [runTurn, hcp] at h ⊢
    simp at h
    subst h
    rfl
  | ok pr =>
    obtain ⟨store1, cpMsgs⟩ := pr
    cases hpl : plan (cpMsgs ++ [.human it.message]) with
    | error e2 =>
      simp only [runTurn, hcp, hpl] at h ⊢
      simp at h
      subst h
      rfl
    | ok newMsgs =>
      simp only [runTurn, hcp, hpl, finishTurn_err] at h
      exact Option.noConfusion h

lemma consumeAll_length (plan : List Msg → Except String (List Msg))
    (items : List QueueItem) : ∀ σ,
    (consumeAll plan σ items).2.length = items.length := by
  induction items with
  | nil => intro σ; rfl
  | cons it rest ih =>
    intro σ
    show ((runTurn plan σ it).2 :: (consumeAll plan (runTurn plan σ it).1 rest).2).length
        = rest.length + 1
    rw [List.length_cons, ih]

lemma consumeState_cons (plan : List Msg → Except String (List Msg)) (σ : SysState)
    (it : QueueItem) (rest : List QueueItem) :
    consumeState plan σ (it :: rest) = consumeState plan (runTurn plan σ it).1 rest := rfl

lemma consumeAll_getElem (plan : List Msg → Except String (List Msg))
    (items : List QueueItem) : ∀ (σ : SysState) (k : Nat),
    (consumeAll plan σ items).2[k]?
      = (items[k]?).map fun it => (runTurn plan (consumeState plan σ (items.take k)) it).2 := by
  induction items with
  | nil => intro σ k; simp [consumeAll]
  | cons it rest ih =>
    intro σ k
    cases k with
    | zero =>
      show ((runTurn plan σ it).2 :: (consumeAll plan (runTurn plan σ it).1 rest).2)[0]?
          = _
      simp [consumeState]
    | succ k =>
      show ((runTurn plan σ it).2 :: (consumeAll plan (runTurn plan σ it).1 rest).2)[k + 1]?
          = _
      rw [List.getElem?_cons_succ, ih, List.getElem?_cons_succ, List.take_succ_cons,
        consumeState_cons]

lemma consumeState_clock_mono (plan : List Msg → Except String (List Msg))
    (items : List QueueItem) : ∀ σ,
    σ.db.clock ≤ (consumeState plan σ items).db.clock := by
  induction items with
  | nil => intro σ; exact le_refl _
  | cons it rest ih =>
    intro σ
    exact le_trans (runTurn_spec plan σ it).2.1 (ih (runTurn plan σ it).1)

lemma consumeState_append (plan : List Msg → Except String (List Msg))
    (xs ys : List QueueItem) : ∀ σ,
    consumeState plan σ (xs ++ ys) = consumeState plan (consumeState plan σ xs) ys := by
  induction xs with
  | nil => intro σ; rfl
  | cons a rest ih => intro σ; exact ih _

lemma consumeState_take_succ (plan : List Msg → Except String (List Msg))
    (items : List QueueItem) : ∀ (k : Nat) (it : QueueItem) (σ : SysState),
    items[k]? = some it →
    consumeState plan σ (items.take (k + 1))
      = (runTurn plan (consumeState plan σ (items.take k)) it).1 := by
  induction items with
  | nil => intro k it σ h; simp at h
  | cons a rest ih =>
    intro k it σ h
    cases k with
    | zero =>
      simp only [List.getElem?_cons_zero, Option.some.injEq] at h
      subst h
      rfl
    | succ k =>
      rw [List.getElem?_cons_succ] at h
      rw [List.take_succ_cons, consumeState_cons, ih k it _ h, List.take_succ_cons,
        consumeState_cons]

lemma consumeAll_fst (plan : List Msg → Except String (List Msg))
    (items : List QueueItem) : ∀ σ,
    (consumeAll plan σ items).1 = consumeState plan σ items := by
  induction items with
  | nil => intro σ; rfl
  | cons it rest ih => intro σ; exact ih _

lemma consumeAll_log (plan : List Msg → Except String (List Msg))
    (items : List QueueItem) : ∀ σ,
    (consumeAll plan σ items).1.db.log
      = σ.db.log ++ ((consumeAll plan σ items).2.map fun tr => dbRowsOf tr.effects).flatten := by
  induction items with
  | nil => intro σ; simp [consumeAll]
  | cons it rest ih =>
    intro σ
    show (consumeAll plan (runTurn plan σ it).1 rest).1.db.log
        = σ.db.log ++ (((runTurn plan σ it).2 :: (consumeAll plan (runTurn plan σ it).1 rest).2).map
            fun tr => dbRowsOf tr.effects).flatten
    rw [List.map_cons, List.flatten_cons, ih, (runTurn_spec plan σ it).1, List.append_assoc]


/-- C4: the consumer processes every queue item exactly once, in order:
the result list has one entry per item, the k-th result is the outcome of
running the k-th item's turn from the state left by its predecessors
(whether or not they failed), and a caught exception is recorded as an
error-log effect carrying the item's conversation id — so no exception
raised by one item prevents a subsequent item from being processed. -/
theorem c4_item_isolation (plan : List Msg → Except String (List Msg)) (σ : SysState)
    (items : List QueueItem) :
    (consumeAll plan σ items).2.length = items.length
    ∧ ∀ k it tr, items[k]? = some it →
        (consumeAll plan σ items).2[k]? = some tr →
        tr = (runTurn plan (consumeState plan σ (items.take k)) it).2
        ∧ ∀ e, tr.err = some e →
            tr.effects.getLast? = some (.logError it.conversation_id e) := by
  refine ⟨consumeAll_length plan items σ, ?_⟩
  intro k it tr hit htr
  have he := consumeAll_getElem plan items σ k
  rw [hit] at he
  rw [htr] at he
  have htr2 : tr = (runTurn plan (consumeState plan σ (items.take k)) it).2 :=
    Option.some.inj he
  refine ⟨htr2, ?_⟩
  intro e herr
  rw [htr2] at herr ⊢
  exact runTurn_err_logs plan (consumeState plan σ (items.take k)) it e herr

/-- C4 witness: on a queue whose first item hits a malformed persisted
payload, the first turn aborts with a logged error for conversation 1 and
the second item is still fully processed (no error). -/
theorem c4_witness :
    (consumeAll planHello sysBadRow [itemA, itemC]).2.length = 2
    ∧ (consumeAll planHello sysBadRow [itemA, itemC]).2[0]?
        = some ⟨[.logError 1 "json.loads failed on agent_tool_call payload"],
                some "json.loads failed on agent_tool_call payload"⟩
    ∧ (⟨[.logError 1 "json.loads failed on agent_tool_call payload"],
          some "json.loads failed on agent_tool_call payload"⟩ : TurnResult).effects.getLast?
        = some (.logError 1 "json.loads failed on agent_tool_call payload")
    ∧ ∃ tr2, (consumeAll planHello sysBadRow [itemA, itemC]).2[1]? = some tr2
        ∧ tr2.err = none := by
  refine ⟨(c4_item_isolation planHello sysBadRow [itemA, itemC]).1, rfl, ?_, ?_⟩
  · have h := ((c4_item_isolation planHello sysBadRow [itemA, itemC]).2 0 itemA
      ⟨[.logError 1 "json.loads failed on agent_tool_call payload"],
        some "json.loads failed on agent_tool_call payload"⟩ rfl rfl).2
      "json.loads failed on agent_tool_call payload" rfl
    exact h
  · exact ⟨⟨[.dbAdd ⟨2, 2, "user", .text "hi", 1⟩,
        .dbAdd ⟨3, 2, "agent", .text "hello", 3⟩, .sent "p2" "hello"], none⟩, rfl, rfl⟩

/-- C7: the final durable log is the initial log followed by each turn's
rows, grouped per item in dequeue (enqueue) order; and for two items of the
same conversation at queue positions i < j, every durable artifact of the
earlier turn carries a strictly smaller `created_at` than every artifact of
the later turn — the earlier turn is fully logged before the later one
begins. -/
theorem c7_fifo_order (plan : List Msg → Except String (List Msg)) (σ : SysState)
    (items : List QueueItem) :
    ((consumeAll plan σ items).1.db.log
      = σ.db.log ++ ((consumeAll plan σ items).2.map fun tr => dbRowsOf tr.effects).flatten)
    ∧ ∀ (i j : Nat) (iti itj : QueueItem) (tri trj : TurnResult), i < j →
        items[i]? = some iti → items[j]? = some itj →
        iti.conversation_id = itj.conversation_id →
        (consumeAll plan σ items).2[i]? = some tri →
        (consumeAll plan σ items).2[j]? = some trj →
        ∀ r ∈ dbRowsOf tri.effects, ∀ s ∈ dbRowsOf trj.effects,
          r.created_at < s.created_at := by
  refine ⟨consumeAll_log plan items σ, ?_⟩
  intro i j iti itj tri trj hij hi hj hcc htri htrj r hr s hs
  have hei := consumeAll_getElem plan items σ i
  rw [hi, htri] at hei
  have htri2 := Option.some.inj hei
  have hej := consumeAll_getElem plan items σ j
  rw [hj, htrj] at hej
  have htrj2 := Option.some.inj hej
  rw [htri2] at hr
  rw [htrj2] at hs
  have hub := ((runTurn_spec plan (consumeState plan σ (items.take i)) iti).2.2 r hr).2
  have hlb := ((runTurn_spec plan (consumeState plan σ (items.take j)) itj).2.2 s hs).1
  have hstep := consumeState_take_succ plan items i iti σ hi
  have hsplit : items.take j = items.take (i + 1) ++ ((items.drop (i + 1)).take (j - (i + 1))) := by
    conv_lhs => rw [show j = (i + 1) + (j - (i + 1)) from by omega]
    rw [List.take_add]
  have hmono : (consumeState plan σ (items.take (i + 1))).db.clock
      ≤ (consumeState plan σ (items.take j)).db.clock := by
    rw [hsplit, consumeState_append]
    exact consumeState_clock_mono plan _ _
  rw [hstep] at hmono
  omega

/-- C7 witness: two enqueues of conversation 1 are processed in order; the
first turn's user row (time 0) is durably logged before the second turn's
user row (time 3). -/
theorem c7_witness :
    ((consumeAll planHello sysEmpty [itemA, itemB]).1.db.log
      = sysEmpty.db.log
        ++ ((consumeAll planHello sysEmpty [itemA, itemB]).2.map fun tr => dbRowsOf tr.effects).flatten)
    ∧ (0 : Nat) < 1
    ∧ (⟨1, 1, "user", .text "a", 0⟩ : DbRow).created_at
        < (⟨3, 1, "user", .text "b", 3⟩ : DbRow).created_at := by
  refine ⟨(c7_fifo_order planHello sysEmpty [itemA, itemB]).1, by decide, ?_⟩
  exact (c7_fifo_order planHello sysEmpty [itemA, itemB]).2 0 1 itemA itemB
    ⟨[.dbAdd ⟨1, 1, "user", .text "a", 0⟩, .dbAdd ⟨2, 1, "agent", .text "hello", 2⟩,
        .sent "p1" "hello"], none⟩
    ⟨[.dbAdd ⟨3, 1, "user", .text "b", 3⟩, .dbAdd ⟨4, 1, "agent", .text "hello", 5⟩,
        .sent "p1" "hello"], none⟩
    (by decide) rfl rfl rfl rfl rfl
    ⟨1, 1, "user", .text "a", 0⟩ (by decide)
    ⟨3, 1, "user", .text "b", 3⟩ (by decide)

end DentalDesk
